import Mathlib

/-!
Verification of the subtool (mkvtool) CLI dispatch layer, embedded from
src/main.go.  The repository ships only main.go; the helper operations it
calls (remux, extract, submux, setdefault, trackByLanguage, format, rename)
live outside the provided sources, so they are modelled as abstract
function-valued fields of an environment structure `Env`, and the dispatch
logic of `main` is translated faithfully over that environment.
-/

namespace Subtool

/-- Execution runner: live command runner (`runCommand`) or the dry-run
printer (`fakeRunCommand`), as selected once in `main`. -/
inductive Runner
  | live
  | fake
  deriving DecidableEq

/-- A parsed Matroska container, as returned by `mustParseFile`. Only the
path is relevant to the dispatch layer. -/
structure MatroskaFile where
  path : String
  deriving DecidableEq

/-- The temporary-track info returned by `extract` (field `fname` is the
temporary file name removed afterwards with `os.Remove`). -/
structure TrackFileInfo where
  fname : String
  deriving DecidableEq

/-- A Go `error` value: `none` is nil, `some msg` a non-nil error. -/
abbrev Err := Option String

/-- Observable actions of one invocation, in the order they occur. -/
inductive Event
  | loggedSkip (fname : String)
  | parsed (fname : String)
  | calledSetdefault (fname : String) (track : Int)
  | calledExtract (input : String) (track : Int)
  | calledSubmux (input : String) (output : String) (subsOnly : Bool) (run : Runner)
  | removedFile (fname : String)
  | printedLine (s : String)
  | calledRemux (inputs : List String) (output : String) (run : Runner) (subs : Bool)
  | calledRename (fname : String) (dryrun : Bool)
  | calledShow (fname : String) (uid : Bool)
  | loggedError (msg : String)
  | noticeDryRun
  | fatalLog (msg : String)
  deriving DecidableEq

/-- Abstract environment: concrete behavior of the helper operations called
by `main` but defined outside main.go, plus the file system stat check. -/
structure Env where
  stat : String → Bool
  parseFile : String → MatroskaFile
  trackByLanguage : MatroskaFile → List String → List String → Except String Int
  setdefault : MatroskaFile → Int → Runner → Err
  extract : MatroskaFile → Int → Runner → Except String TrackFileInfo
  submux : String → String → Bool → Runner → TrackFileInfo → Err
  format : String → String → Except String String
  rename : String → String → Bool → Err
  remux : List String → String → Runner → Bool → Err
  osRemove : String → Err

/-- `readable` from main.go: keeps the files whose `os.Stat` succeeds, in
order, and logs a skip note for each of the others. Returns the kept list
and the log events. -/
def readable (stat : String → Bool) : List String → List String × List Event
  | [] => ([], [])
  | f :: fs =>
    let r := readable stat fs
    if stat f then (f :: r.1, r.2) else (r.1, Event.loggedSkip f :: r.2)

/-- The `merge` case of the switch in `main`: one call of `remux` with the
given inputs, output, runner and subs flag; its error is appended as is. -/
def mergeCase (env : Env) (inputs : List String) (output : String)
    (run : Runner) (subs : Bool) : List Err × List Event :=
  ([env.remux inputs output run subs],
   [Event.calledRemux inputs output run subs])

/-- The `remux` case of the switch in `main`: `remux` with the singleton
input list and the subs flag hardwired to true. -/
def remuxCase (env : Env) (input output : String) (run : Runner) :
    List Err × List Event :=
  ([env.remux [input] output run true],
   [Event.calledRemux [input] output run true])

/-- The `only` case of the switch in `main`: parse the input, extract the
requested track; on extraction error record it (named after the input) and
stop; otherwise submux with the sole-subtitle flag true, record its result,
and attempt `os.Remove` of the temporary file, discarding its error. -/
def onlyCase (env : Env) (track : Int) (input output : String)
    (run : Runner) : List Err × List Event :=
  let mkv := env.parseFile input
  match env.extract mkv track run with
  | .error e =>
    ([some (input ++ ": " ++ e)],
     [Event.parsed input, Event.calledExtract input track])
  | .ok tfi =>
    let err := env.submux input output true run tfi
    let _ := env.osRemove tfi.fname
    ([err],
     [Event.parsed input, Event.calledExtract input track,
      Event.calledSubmux input output true run,
      Event.removedFile tfi.fname])

/-- The loop of the `print` case: format each file; on error record it
(named after the file) and continue; on success print the output. -/
def printLoop (env : Env) (fmask : String) : List String → List Err × List Event
  | [] => ([], [])
  | fname :: rest =>
    match env.format fmask fname with
    | .error e =>
      let r := printLoop env fmask rest
      (some (fname ++ ": " ++ e) :: r.1, r.2)
    | .ok output =>
      let r := printLoop env fmask rest
      (r.1, Event.printedLine output :: r.2)

/-- The loop of the `rename` case: `rename` receives the dry-run flag as a
direct boolean argument; errors are recorded named after the file. -/
def renameLoop (env : Env) (fmask : String) (dryrun : Bool) :
    List String → List Err × List Event
  | [] => ([], [])
  | fname :: rest =>
    let err := env.rename fmask fname dryrun
    let r := renameLoop env fmask dryrun rest
    ((match err with
      | some m => [some (fname ++ ": " ++ m)]
      | none => []) ++ r.1,
     Event.calledRename fname dryrun :: r.2)

/-- The loop of the `setdefault` case: parse each file and issue the
setdefault mutation; errors are recorded named after the file. -/
def setDefaultLoop (env : Env) (track : Int) (run : Runner) :
    List String → List Err × List Event
  | [] => ([], [])
  | fname :: rest =>
    let mkv := env.parseFile fname
    let err := env.setdefault mkv track run
    let r := setDefaultLoop env track run rest
    ((match err with
      | some m => [some (fname ++ ": " ++ m)]
      | none => []) ++ r.1,
     Event.parsed fname :: Event.calledSetdefault fname track :: r.2)

/-- The loop of the `setdefaultbylang` case: parse each file, resolve the
track by language; on selection error record it and `break` out of the loop
(remaining files are not processed, as in the source); otherwise issue
setdefault and record its error, continuing with the rest. -/
def setDefaultByLangLoop (env : Env) (langs ignore : List String)
    (run : Runner) : List String → List Err × List Event
  | [] => ([], [])
  | fname :: rest =>
    let mkv := env.parseFile fname
    match env.trackByLanguage mkv langs ignore with
    | .error e =>
      ([some (fname ++ ": " ++ e)], [Event.parsed fname])
    | .ok track =>
      let err := env.setdefault mkv track run
      let r := setDefaultByLangLoop env langs ignore run rest
      ((match err with
        | some m => [some (fname ++ ": " ++ m)]
        | none => []) ++ r.1,
       Event.parsed fname :: Event.calledSetdefault fname track :: r.2)

/-- The loop of the `show` case: parse and show each file; never records an
error. -/
def showLoop (env : Env) (uid : Bool) : List String → List Err × List Event
  | [] => ([], [])
  | fname :: rest =>
    let _ := env.parseFile fname
    let r := showLoop env uid rest
    (r.1, Event.parsed fname :: Event.calledShow fname uid :: r.2)

/-- The parsed subcommand (what kingpin dispatch resolved to). -/
inductive Cmd
  | version
  | merge (inputs : List String) (output : String) (subs : Bool)
  | only (track : Int) (input : String) (output : String)
  | print (fmask : String) (files : List String)
  | remuxC (input : String) (output : String)
  | rename (fmask : String) (files : List String)
  | setdefault (track : Int) (files : List String)
  | setdefaultbylang (langs : List String) (ignore : List String) (files : List String)
  | showC (uid : Bool) (files : List String)

/-- The switch statement of `main`: dispatch one subcommand, returning the
collected error list and the event trace. The `rename`, `setdefault`,
`setdefaultbylang` and `show` cases filter their file list through
`readable` first; `merge` and `print` do not. -/
def dispatch (env : Env) (dryrun : Bool) (run : Runner) : Cmd → List Err × List Event
  | .version => ([], [])
  | .merge inputs output subs => mergeCase env inputs output run subs
  | .only track input output => onlyCase env track input output run
  | .print fmask files => printLoop env fmask files
  | .remuxC input output => remuxCase env input output run
  | .rename fmask files =>
    let r := readable env.stat files
    let p := renameLoop env fmask dryrun r.1
    (p.1, r.2 ++ p.2)
  | .setdefault track files =>
    let r := readable env.stat files
    let p := setDefaultLoop env track run r.1
    (p.1, r.2 ++ p.2)
  | .setdefaultbylang langs ignore files =>
    let r := readable env.stat files
    let p := setDefaultByLangLoop env langs ignore run r.1
    (p.1, r.2 ++ p.2)
  | .showC uid files =>
    let r := readable env.stat files
    let p := showLoop env uid r.1
    (p.1, r.2 ++ p.2)

/-- Runner selection in `main`: the fake (print-only) runner under
dry-run, the live runner otherwise. -/
def chooseRunner (dryrun : Bool) : Runner :=
  if dryrun then Runner.fake else Runner.live

/-- The final error loop of `main`: log every non-nil collected error and
remember whether any was non-nil (the `failed` flag). -/
def reportErrors : List Err → Bool × List Event
  | [] => (false, [])
  | e :: rest =>
    let r := reportErrors rest
    match e with
    | none => r
    | some m => (true, Event.loggedError m :: r.2)

/-- Outcome of one whole invocation of `main`. -/
structure MainResult where
  errors : List Err
  events : List Event
  fatalExit : Bool
  deriving DecidableEq

/-- `main` after argument parsing: choose the runner once from the dry-run
flag (printing the notice under dry-run), dispatch the subcommand, then log
the non-nil errors and exit fatally (non-zero) when any occurred. -/
def runMain (env : Env) (dryrun : Bool) (cmd : Cmd) : MainResult :=
  let run := chooseRunner dryrun
  let notice : List Event := if dryrun then [Event.noticeDryRun] else []
  let d := dispatch env dryrun run cmd
  let rep := reportErrors d.1
  { errors := d.1
    events := notice ++ d.2 ++ rep.2
        ++ (if rep.1 then [Event.fatalLog "Execution failed"] else [])
    fatalExit := rep.1 }

/-- Test environment: every file readable, parsing returns the path,
language selection fails exactly on file "a" with a no-matching-track
error and otherwise resolves track 1, every other operation succeeds, and
extraction yields the temporary file "tmp". -/
def envA : Env where
  stat := fun _ => true
  parseFile := fun s => ⟨s⟩
  trackByLanguage := fun mkv _ _ =>
    if mkv.path = "a" then .error "no matching track" else .ok 1
  setdefault := fun _ _ _ => none
  extract := fun _ _ _ => .ok ⟨"tmp"⟩
  submux := fun _ _ _ _ _ => none
  format := fun _ f => .ok f
  rename := fun _ _ _ => none
  remux := fun _ _ _ _ => none
  osRemove := fun _ => none

/-- Test environment in which no file passes the stat check. -/
def envB : Env :=
  { envA with stat := fun _ => false }

/-- Test environment in which extraction always fails. -/
def envC : Env :=
  { envA with extract := fun _ _ _ => .error "boom" }

/-- Test environment in which the submux step always fails. -/
def envD : Env :=
  { envA with submux := fun _ _ _ _ _ => some "muxfail" }

/-! Helper lemmas about the building blocks, shared by the claim proofs. -/

theorem readable_fst_eq_filter (stat : String → Bool) (l : List String) :
    (readable stat l).1 = l.filter stat := by
  induction l with
  | nil => rfl
  | cons f fs ih =>
    by_cases h : stat f
    · simp [readable, h, List.filter_cons, ih]
    · simp [readable, h, List.filter_cons, ih]

theorem loggedSkip_mem_readable_snd (stat : String → Bool) (l : List String)
    (f : String) (h1 : f ∈ l) (h2 : stat f = false) :
    Event.loggedSkip f ∈ (readable stat l).2 := by
  induction l with
  | nil => exact absurd h1 (List.not_mem_nil f)
  | cons g gs ih =>
    rcases List.mem_cons.mp h1 with rfl | hmem
    · simp [readable, h2]
    · by_cases h : stat g
      · simpa [readable, h] using ih hmem
      · simp [readable, h]
        exact Or.inr (ih hmem)

theorem readable_snd_skips (stat : String → Bool) (l : List String)
    (ev : Event) (h : ev ∈ (readable stat l).2) : ∃ g, ev = Event.loggedSkip g := by
  induction l with
  | nil => exact absurd h (List.not_mem_nil ev)
  | cons g gs ih =>
    by_cases hs : stat g
    · exact ih (by simpa [readable, hs] using h)
    · rcases List.mem_cons.mp (by simpa [readable, hs] using h) with rfl | hmem
      · exact ⟨g, rfl⟩
      · exact ih hmem

theorem calledRename_mem_renameLoop (env : Env) (fmask : String) (d : Bool)
    (fs : List String) (f : String) (b : Bool)
    (h : Event.calledRename f b ∈ (renameLoop env fmask d fs).2) : f ∈ fs := by
  induction fs with
  | nil => exact absurd h (List.not_mem_nil _)
  | cons g gs ih =>
    have h' : (f = g ∧ b = d) ∨ Event.calledRename f b ∈ (renameLoop env fmask d gs).2 := by
      simpa [renameLoop] using h
    rcases h' with ⟨rfl, _⟩ | hmem
    · exact List.mem_cons_self f gs
    · exact List.mem_cons.mpr (Or.inr (ih hmem))

theorem parsed_mem_setDefaultLoop (env : Env) (track : Int) (run : Runner)
    (fs : List String) (f : String)
    (h : Event.parsed f ∈ (setDefaultLoop env track run fs).2) : f ∈ fs := by
  induction fs with
  | nil => exact absurd h (List.not_mem_nil _)
  | cons g gs ih =>
    have h' : Event.parsed f = Event.parsed g ∨
        Event.parsed f = Event.calledSetdefault g track ∨
        Event.parsed f ∈ (setDefaultLoop env track run gs).2 := by
      simpa [setDefaultLoop, List.mem_cons] using h
    rcases h' with heq | heq | hmem
    · exact List.mem_cons.mpr (Or.inl (by cases heq; rfl))
    · exact absurd heq (by simp)
    · exact List.mem_cons.mpr (Or.inr (ih hmem))

theorem parsed_mem_setDefaultByLangLoop (env : Env) (langs ignore : List String)
    (run : Runner) (fs : List String) (f : String)
    (h : Event.parsed f ∈ (setDefaultByLangLoop env langs ignore run fs).2) :
    f ∈ fs := by
  induction fs with
  | nil => exact absurd h (List.not_mem_nil _)
  | cons g gs ih =>
    cases hsel : env.trackByLanguage (env.parseFile g) langs ignore with
    | error e =>
      have h' : Event.parsed f = Event.parsed g := by
        simpa [setDefaultByLangLoop, hsel] using h
      exact List.mem_cons.mpr (Or.inl (by cases h'; rfl))
    | ok t =>
      have h' : Event.parsed f = Event.parsed g ∨
          Event.parsed f = Event.calledSetdefault g t ∨
          Event.parsed f ∈ (setDefaultByLangLoop env langs ignore run gs).2 := by
        simpa [setDefaultByLangLoop, hsel, List.mem_cons] using h
      rcases h' with heq | heq | hmem
      · exact List.mem_cons.mpr (Or.inl (by cases heq; rfl))
      · exact absurd heq (by simp)
      · exact List.mem_cons.mpr (Or.inr (ih hmem))

theorem parsed_mem_showLoop (env : Env) (uid : Bool) (fs : List String) (f : String)
    (h : Event.parsed f ∈ (showLoop env uid fs).2) : f ∈ fs := by
  induction fs with
  | nil => exact absurd h (List.not_mem_nil _)
  | cons g gs ih =>
    have h' : Event.parsed f = Event.parsed g ∨
        Event.parsed f = Event.calledShow g uid ∨
        Event.parsed f ∈ (showLoop env uid gs).2 := by
      simpa [showLoop, List.mem_cons] using h
    rcases h' with heq | heq | hmem
    · exact List.mem_cons.mpr (Or.inl (by cases heq; rfl))
    · exact absurd heq (by simp)
    · exact List.mem_cons.mpr (Or.inr (ih hmem))

theorem reportErrors_fst_iff (l : List Err) :
    (reportErrors l).1 = true ↔ ∃ m, some m ∈ l := by
  induction l with
  | nil => simp [reportErrors]
  | cons e rest ih =>
    cases e with
    | none => simpa [reportErrors] using ih
    | some m =>
      exact ⟨fun _ => ⟨m, List.mem_cons.mpr (Or.inl rfl)⟩, fun _ => rfl⟩

theorem reportErrors_logged (l : List Err) (m : String) (h : some m ∈ l) :
    Event.loggedError m ∈ (reportErrors l).2 := by
  induction l with
  | nil => exact absurd h (List.not_mem_nil _)
  | cons e rest ih =>
    rcases List.mem_cons.mp h with heq | hmem
    · cases heq; simp [reportErrors]
    · cases e with
      | none => simpa [reportErrors] using ih hmem
      | some m2 => simpa [reportErrors] using Or.inr (ih hmem)

/-! Claim theorems. -/

/-- Claim C1: the spec promises per-file failure isolation for
setdefaultbylang, but the source's selection-error branch executes a Go
`break` inside the for loop, aborting the loop. On files [a, b] with
selection failing on a, file b is never parsed, never mutated, and no
result for it is reported — only a's error is collected. -/
theorem claim_C1_break_aborts_remaining_files :
    (runMain envA false (Cmd.setdefaultbylang ["en"] [] ["a", "b"])).errors
        = [some "a: no matching track"] ∧
    Event.parsed "b" ∉
      (runMain envA false (Cmd.setdefaultbylang ["en"] [] ["a", "b"])).events ∧
    Event.calledSetdefault "b" 1 ∉
      (runMain envA false (Cmd.setdefaultbylang ["en"] [] ["a", "b"])).events := by
  refine ⟨rfl, ?_, ?_⟩ <;> decide

/-- Claim C2: in the only pipeline, once step 2 (submux) runs, removal of
the temporary extracted-track file is attempted whether or not submux
errs, the collected errors are exactly the submux result, and the removal
outcome is discarded: the error list is unchanged under any removal
behavior. -/
theorem claim_C2_cleanup_unconditional
    (env : Env) (track : Int) (input output : String) (run : Runner)
    (tfi : TrackFileInfo)
    (h : env.extract (env.parseFile input) track run = .ok tfi) :
    Event.removedFile tfi.fname ∈ (onlyCase env track input output run).2 ∧
    (onlyCase env track input output run).1
        = [env.submux input output true run tfi] ∧
    ∀ rm, (onlyCase { env with osRemove := rm } track input output run).1
        = (onlyCase env track input output run).1 := by
  refine ⟨?_, ?_, ?_⟩
  · simp [onlyCase, h]
  · simp [onlyCase, h]
  · intro rm
    simp [onlyCase, h]

/-- Witness for C2: a concrete environment whose submux step fails; the
removal of "tmp" is still attempted, the only collected error is the
submux error, and the error list ignores the removal behavior. -/
theorem claim_C2_cleanup_unconditional_witness :
    Event.removedFile "tmp" ∈ (onlyCase envD 1 "in" "out" Runner.live).2 ∧
    (onlyCase envD 1 "in" "out" Runner.live).1 = [some "muxfail"] ∧
    ∀ rm, (onlyCase { envD with osRemove := rm } 1 "in" "out" Runner.live).1
        = (onlyCase envD 1 "in" "out" Runner.live).1 := by
  have h := claim_C2_cleanup_unconditional envD 1 "in" "out" Runner.live ⟨"tmp"⟩ rfl
  exact ⟨h.1, h.2.1.trans rfl, h.2.2⟩

/-- Claim C3, counterexample: dry-run does not act only through the Runner
value — with the very same runner, the rename dispatch differs between the
two dry-run flag values, because main passes the flag directly to rename. -/
theorem claim_C3_counterexample :
    (dispatch envA true Runner.fake (Cmd.rename "mask" ["x"])).2
      ≠ (dispatch envA false Runner.fake (Cmd.rename "mask" ["x"])).2 := by
  decide

/-- Claim C3, amended: dry-run selects the Runner once (fake when set, live
otherwise), and the merge, only, remux, setdefault and setdefaultbylang
dispatches receive the execution mode only through that runner: their
outcome is invariant in the dry-run flag itself. (rename is the exception:
it takes the flag as a direct argument.) -/
theorem claim_C3_amended_runner_only (env : Env) (run : Runner) (d d' : Bool) :
    (∀ inputs output subs, dispatch env d run (Cmd.merge inputs output subs)
        = dispatch env d' run (Cmd.merge inputs output subs)) ∧
    (∀ track input output, dispatch env d run (Cmd.only track input output)
        = dispatch env d' run (Cmd.only track input output)) ∧
    (∀ input output, dispatch env d run (Cmd.remuxC input output)
        = dispatch env d' run (Cmd.remuxC input output)) ∧
    (∀ track files, dispatch env d run (Cmd.setdefault track files)
        = dispatch env d' run (Cmd.setdefault track files)) ∧
    (∀ langs ignore files,
        dispatch env d run (Cmd.setdefaultbylang langs ignore files)
        = dispatch env d' run (Cmd.setdefaultbylang langs ignore files)) ∧
    chooseRunner true = Runner.fake ∧ chooseRunner false = Runner.live :=
  ⟨fun _ _ _ => rfl, fun _ _ _ => rfl, fun _ _ => rfl, fun _ _ => rfl,
   fun _ _ _ => rfl, rfl, rfl⟩

/-- Claim C4: in the setdefaultbylang loop, a setdefault mutation is issued
for a file only when language selection returned that track for it, and a
file whose selection fails (once reached, i.e. parsed) gets an error
prefixed with its name recorded and no mutation. -/
theorem claim_C4_selection_gates_setdefault
    (env : Env) (langs ignore : List String) (run : Runner)
    (files : List String) :
    (∀ fname track,
       Event.calledSetdefault fname track
           ∈ (setDefaultByLangLoop env langs ignore run files).2 →
       env.trackByLanguage (env.parseFile fname) langs ignore = .ok track) ∧
    (∀ fname e,
       Event.parsed fname ∈ (setDefaultByLangLoop env langs ignore run files).2 →
       env.trackByLanguage (env.parseFile fname) langs ignore = .error e →
       some (fname ++ ": " ++ e)
           ∈ (setDefaultByLangLoop env langs ignore run files).1) := by
  induction files with
  | nil =>
    exact ⟨fun _ _ h => absurd h (List.not_mem_nil _),
           fun _ _ h => absurd h (List.not_mem_nil _)⟩
  | cons f fs ih =>
    cases hsel : env.trackByLanguage (env.parseFile f) langs ignore with
    | error e =>
      constructor
      · intro fname track hmem
        simp [setDefaultByLangLoop, hsel] at hmem
      · intro fname e' hmem hfail
        have : Event.parsed fname = Event.parsed f := by
          simpa [setDefaultByLangLoop, hsel] using hmem
        cases this
        rw [hsel] at hfail
        cases hfail
        simp [setDefaultByLangLoop, hsel]
    | ok t =>
      constructor
      · intro fname track hmem
        have h' : Event.calledSetdefault fname track = Event.parsed f ∨
            Event.calledSetdefault fname track = Event.calledSetdefault f t ∨
            Event.calledSetdefault fname track
              ∈ (setDefaultByLangLoop env langs ignore run fs).2 := by
          simpa [setDefaultByLangLoop, hsel, List.mem_cons] using hmem
        rcases h' with heq | heq | hmem'
        · exact absurd heq (by simp)
        · cases heq; exact hsel
        · exact ih.1 fname track hmem'
      · intro fname e' hmem hfail
        have h' : Event.parsed fname = Event.parsed f ∨
            Event.parsed fname = Event.calledSetdefault f t ∨
            Event.parsed fname ∈ (setDefaultByLangLoop env langs ignore run fs).2 := by
          simpa [setDefaultByLangLoop, hsel, List.mem_cons] using hmem
        rcases h' with heq | heq | hmem'
        · cases heq
          rw [hsel] at hfail
          cases hfail
        · exact absurd heq (by simp)
        · have := ih.2 fname e' hmem' hfail
          simp only [setDefaultByLangLoop, hsel]
          exact List.mem_append_right _ this

/-- Witness for C4: on the concrete environment, a mutation event for "b"
implies selection resolved track 1 for it, and with file list ["a"] (whose
selection fails) the recorded error names "a". -/
theorem claim_C4_selection_gates_setdefault_witness :
    envA.trackByLanguage (envA.parseFile "b") ["en"] [] = .ok 1 ∧
    some ("a" ++ ": " ++ "no matching track")
      ∈ (setDefaultByLangLoop envA ["en"] [] Runner.live ["a"]).1 := by
  refine ⟨(claim_C4_selection_gates_setdefault envA ["en"] [] Runner.live ["b"]).1
            "b" 1 ?_,
          (claim_C4_selection_gates_setdefault envA ["en"] [] Runner.live ["a"]).2
            "a" "no matching track" ?_ ?_⟩
  · decide
  · decide
  · rfl

/-- Claim C5: the process exits fatally (non-zero) if and only if some
collected error is non-nil; every non-nil collected error is logged; and
the fatal exit is accompanied by the single generic fatal log message. -/
theorem claim_C5_exit_iff_error (env : Env) (dryrun : Bool) (cmd : Cmd) :
    ((runMain env dryrun cmd).fatalExit = true ↔
        ∃ m, some m ∈ (runMain env dryrun cmd).errors) ∧
    (∀ m, some m ∈ (runMain env dryrun cmd).errors →
        Event.loggedError m ∈ (runMain env dryrun cmd).events) ∧
    ((runMain env dryrun cmd).fatalExit = true →
        Event.fatalLog "Execution failed" ∈ (runMain env dryrun cmd).events) := by
  refine ⟨?_, ?_, ?_⟩
  · simpa [runMain] using
      reportErrors_fst_iff (dispatch env dryrun (chooseRunner dryrun) cmd).1
  · intro m hm
    have h1 : Event.loggedError m
        ∈ (reportErrors (dispatch env dryrun (chooseRunner dryrun) cmd).1).2 :=
      reportErrors_logged _ m (by simpa [runMain] using hm)
    simp only [runMain, List.mem_append]
    exact Or.inl (Or.inr h1)
  · intro hf
    have h1 : (reportErrors (dispatch env dryrun (chooseRunner dryrun) cmd).1).1
        = true := by
      simpa [runMain] using hf
    simp only [runMain, List.mem_append, h1, if_true]
    exact Or.inr (List.mem_singleton.mpr rfl)

/-- Witness for C5: on a failing setdefaultbylang invocation the error is
logged and the generic fatal message is emitted. -/
theorem claim_C5_exit_iff_error_witness :
    Event.loggedError "a: no matching track"
        ∈ (runMain envA false (Cmd.setdefaultbylang ["en"] [] ["a"])).events ∧
    Event.fatalLog "Execution failed"
        ∈ (runMain envA false (Cmd.setdefaultbylang ["en"] [] ["a"])).events := by
  have h := claim_C5_exit_iff_error envA false (Cmd.setdefaultbylang ["en"] [] ["a"])
  exact ⟨h.2.1 "a: no matching track" (by decide), h.2.2 (by decide)⟩

/-- Claim C6, counterexample: the print and merge subcommands do not pass
their file lists through the readability check — with a stat that fails on
every file, print still formats and prints file "x", merge still hands "x"
to the remux operation, and no skip note is logged for either. -/
theorem claim_C6_counterexample :
    Event.printedLine "x" ∈ (runMain envB false (Cmd.print "m" ["x"])).events ∧
    Event.loggedSkip "x" ∉ (runMain envB false (Cmd.print "m" ["x"])).events ∧
    Event.calledRemux ["x"] "o" Runner.live true
        ∈ (runMain envB false (Cmd.merge ["x"] "o" true)).events ∧
    Event.loggedSkip "x" ∉ (runMain envB false (Cmd.merge ["x"] "o" true)).events := by
  refine ⟨?_, ?_, ?_, ?_⟩ <;> decide

/-- Claim C6, amended: the rename, setdefault, setdefaultbylang and show
subcommands (but not print or merge) filter their file list through the
readability check first: an unreadable listed file is logged as skipped and
is never renamed, parsed or processed, while the invocation continues. -/
theorem claim_C6_amended_readable_before_loops
    (env : Env) (d : Bool) (run : Runner) (f : String) (files : List String)
    (h1 : f ∈ files) (h2 : env.stat f = false) :
    (∀ fmask, Event.loggedSkip f ∈ (dispatch env d run (Cmd.rename fmask files)).2 ∧
        ∀ b, Event.calledRename f b ∉ (dispatch env d run (Cmd.rename fmask files)).2) ∧
    (∀ track, Event.loggedSkip f ∈ (dispatch env d run (Cmd.setdefault track files)).2 ∧
        Event.parsed f ∉ (dispatch env d run (Cmd.setdefault track files)).2) ∧
    (∀ langs ignore,
        Event.loggedSkip f
            ∈ (dispatch env d run (Cmd.setdefaultbylang langs ignore files)).2 ∧
        Event.parsed f
            ∉ (dispatch env d run (Cmd.setdefaultbylang langs ignore files)).2) ∧
    (∀ uid, Event.loggedSkip f ∈ (dispatch env d run (Cmd.showC uid files)).2 ∧
        Event.parsed f ∉ (dispatch env d run (Cmd.showC uid files)).2) := by
  have hskip := loggedSkip_mem_readable_snd env.stat files f h1 h2
  have hnotin : f ∉ (readable env.stat files).1 := by
    rw [readable_fst_eq_filter]
    simp [List.mem_filter, h2]
  refine ⟨fun fmask => ⟨?_, fun b hmem => ?_⟩,
          fun track => ⟨?_, fun hmem => ?_⟩,
          fun langs ignore => ⟨?_, fun hmem => ?_⟩,
          fun uid => ⟨?_, fun hmem => ?_⟩⟩
  · exact List.mem_append_left _ hskip
  · simp only [dispatch] at hmem
    rcases List.mem_append.mp hmem with hin | hin
    · rcases readable_snd_skips env.stat files _ hin with ⟨g, hg⟩
      exact Event.noConfusion hg
    · exact hnotin (calledRename_mem_renameLoop env fmask d _ f b hin)
  · exact List.mem_append_left _ hskip
  · simp only [dispatch] at hmem
    rcases List.mem_append.mp hmem with hin | hin
    · rcases readable_snd_skips env.stat files _ hin with ⟨g, hg⟩
      exact Event.noConfusion hg
    · exact hnotin (parsed_mem_setDefaultLoop env track run _ f hin)
  · exact List.mem_append_left _ hskip
  · simp only [dispatch] at hmem
    rcases List.mem_append.mp hmem with hin | hin
    · rcases readable_snd_skips env.stat files _ hin with ⟨g, hg⟩
      exact Event.noConfusion hg
    · exact hnotin (parsed_mem_setDefaultByLangLoop env langs ignore run _ f hin)
  · exact List.mem_append_left _ hskip
  · simp only [dispatch] at hmem
    rcases List.mem_append.mp hmem with hin | hin
    · rcases readable_snd_skips env.stat files _ hin with ⟨g, hg⟩
      exact Event.noConfusion hg
    · exact hnotin (parsed_mem_showLoop env uid _ f hin)

/-- Witness for C6 amended: an unreadable lone file "x" is skipped by the
rename subcommand and never handed to the rename operation. -/
theorem claim_C6_amended_readable_before_loops_witness :
    Event.loggedSkip "x" ∈ (dispatch envB false Runner.live (Cmd.rename "m" ["x"])).2 ∧
    Event.calledRename "x" false
        ∉ (dispatch envB false Runner.live (Cmd.rename "m" ["x"])).2 := by
  have h := claim_C6_amended_readable_before_loops envB false Runner.live "x" ["x"]
    (by decide) rfl
  exact ⟨(h.1 "m").1, (h.1 "m").2 false⟩

/-- Claim C7: the only subcommand extracts first; on extraction failure the
recorded error names the input file and submux is never called, and on
success submux runs on the original input with the sole-subtitle flag true,
after extraction, its result being the only recorded error. -/
theorem claim_C7_extract_then_submux
    (env : Env) (track : Int) (input output : String) (run : Runner) :
    (∀ e, env.extract (env.parseFile input) track run = .error e →
        (onlyCase env track input output run).1 = [some (input ++ ": " ++ e)] ∧
        ∀ i o b r, Event.calledSubmux i o b r
            ∉ (onlyCase env track input output run).2) ∧
    (∀ tfi, env.extract (env.parseFile input) track run = .ok tfi →
        (onlyCase env track input output run).2
          = [Event.parsed input, Event.calledExtract input track,
             Event.calledSubmux input output true run,
             Event.removedFile tfi.fname] ∧
        (onlyCase env track input output run).1
          = [env.submux input output true run tfi]) := by
  constructor
  · intro e he
    refine ⟨by simp [onlyCase, he], ?_⟩
    intro i o b r hmem
    simp [onlyCase, he] at hmem
  · intro tfi hok
    exact ⟨by simp [onlyCase, hok], by simp [onlyCase, hok]⟩

/-- Witness for C7: with failing extraction the error names the input and
no submux happens; with succeeding extraction the pipeline events appear in
extract-submux-remove order. -/
theorem claim_C7_extract_then_submux_witness :
    (onlyCase envC 1 "in" "out" Runner.live).1 = [some ("in" ++ ": " ++ "boom")] ∧
    Event.calledSubmux "in" "out" true Runner.live
        ∉ (onlyCase envC 1 "in" "out" Runner.live).2 ∧
    (onlyCase envA 1 "in" "out" Runner.live).2
      = [Event.parsed "in", Event.calledExtract "in" 1,
         Event.calledSubmux "in" "out" true Runner.live,
         Event.removedFile "tmp"] := by
  refine ⟨((claim_C7_extract_then_submux envC 1 "in" "out" Runner.live).1 "boom" rfl).1,
          ((claim_C7_extract_then_submux envC 1 "in" "out" Runner.live).1 "boom" rfl).2
            "in" "out" true Runner.live,
          ((claim_C7_extract_then_submux envA 1 "in" "out" Runner.live).2 ⟨"tmp"⟩ rfl).1⟩

/-- Claim C8: the remux subcommand dispatch equals the merge subcommand
dispatch on the singleton input list with the subtitle-carry flag true, for
every environment, runner, dry-run flag and path pair. -/
theorem claim_C8_remux_is_merge_special_case
    (env : Env) (d : Bool) (run : Runner) (input output : String) :
    dispatch env d run (Cmd.remuxC input output)
      = dispatch env d run (Cmd.merge [input] output true) := rfl

/-- Claim C9: readable returns exactly the stat-passing entries of its
input, as an order-preserving subsequence (no additions, duplications or
reorderings), and a failing entry is only logged as skipped, never
returned. -/
theorem claim_C9_readable_exact_filter (stat : String → Bool) (l : List String) :
    (readable stat l).1 = l.filter stat ∧
    List.Sublist (readable stat l).1 l ∧
    ∀ f, f ∈ l → stat f = false →
        f ∉ (readable stat l).1 ∧ Event.loggedSkip f ∈ (readable stat l).2 := by
  refine ⟨readable_fst_eq_filter stat l, ?_, ?_⟩
  · rw [readable_fst_eq_filter]
    exact l.filter_sublist
  · intro f hf hsf
    refine ⟨?_, loggedSkip_mem_readable_snd stat l f hf hsf⟩
    rw [readable_fst_eq_filter]
    simp [List.mem_filter, hsf]

/-- Stat predicate accepting only the file "a", for concrete witnesses. -/
def statW : String → Bool := fun s => s == "a"

/-- Witness for C9: with a stat accepting only "a", the file "x" of the
list ["a", "x"] is not returned and its skip is logged. -/
theorem claim_C9_readable_exact_filter_witness :
    "x" ∉ (readable statW ["a", "x"]).1 ∧
    Event.loggedSkip "x" ∈ (readable statW ["a", "x"]).2 :=
  (claim_C9_readable_exact_filter statW ["a", "x"]).2.2 "x" (by decide) (by decide)

/-- Claim C10: the removal of the temporary artifact in the only pipeline
is a direct filesystem call outside the Runner: when dry-run selected the
fake runner and step 2 was reached, the removal is still attempted, and it
is attempted identically under every runner. -/
theorem claim_C10_remove_outside_runner
    (env : Env) (track : Int) (input output : String) (tfi : TrackFileInfo)
    (h : env.extract (env.parseFile input) track Runner.fake = .ok tfi) :
    Event.removedFile tfi.fname
        ∈ (onlyCase env track input output (chooseRunner true)).2 ∧
    ∀ run, env.extract (env.parseFile input) track run = .ok tfi →
        Event.removedFile tfi.fname ∈ (onlyCase env track input output run).2 := by
  constructor
  · have hc : chooseRunner true = Runner.fake := rfl
    rw [hc]
    simp [onlyCase, h]
  · intro run hr
    simp [onlyCase, hr]

/-- Witness for C10: under the dry-run runner the removal of "tmp" is still
attempted. -/
theorem claim_C10_remove_outside_runner_witness :
    Event.removedFile "tmp" ∈ (onlyCase envA 1 "in" "out" (chooseRunner true)).2 :=
  (claim_C10_remove_outside_runner envA 1 "in" "out" ⟨"tmp"⟩ rfl).1

end Subtool
